import Mathlib

/-!
Verification of core behaviors of the gallia XCP discovery scanner,
range-grammar utilities and virtual-ECU launcher.

Python strings are modelled as `List Char`, byte strings as `List Nat`,
fallible code as `Option`, and the side effects of the discovery loops
(socket handling, CAN transport calls) as explicit event traces driven
by an environment describing the behavior of the probed medium.
-/

namespace Gallia

/-- Python `str` values are modelled as lists of characters. -/
abbrev PyStr := List Char

/-- Coercion from Lean string literals into the Python string model. -/
def pstr (s : String) : PyStr := s.toList

/-- Embeds Python's `c in s` membership test on strings. -/
def hasChar (c : Char) (l : PyStr) : Bool := l.any (· == c)

/-- Embeds Python's `s.split(sep)` for a single-character separator:
splits at every occurrence, keeping empty parts. -/
def splitOnChar (c : Char) : PyStr → List PyStr
  | [] => [[]]
  | x :: xs =>
    let r := splitOnChar c xs
    if x = c then [] :: r else (x :: r.headI) :: r.tail

/-- Value of a decimal digit character, `none` on other characters. -/
def digitVal (c : Char) : Option Nat :=
  if c.isDigit then some (c.toNat - 48) else none

/-- Value of a hexadecimal digit character, `none` on other characters. -/
def hexDigitVal (c : Char) : Option Nat :=
  if c.isDigit then some (c.toNat - 48)
  else if 'a' ≤ c ∧ c ≤ 'f' then some (c.toNat - 87)
  else if 'A' ≤ c ∧ c ≤ 'F' then some (c.toNat - 55)
  else none

/-- Accumulates a numeral over a digit alphabet. -/
def parseDigits (base : Nat) (dv : Char → Option Nat) : PyStr → Nat → Option Nat
  | [], acc => some acc
  | c :: cs, acc =>
    match dv c with
    | none => none
    | some d => parseDigits base dv cs (acc * base + d)

/-- Embeds `gallia.utils.auto_int` (src/gallia/utils.py lines 30-31), i.e.
Python `int(arg, 0)`, restricted to the numerals of the range grammar:
decimal numerals (without forbidden leading zeros) and `0x`-prefixed
hexadecimal numerals.  Other inputs yield `none` (a `ValueError`). -/
def auto_int (s : PyStr) : Option Nat :=
  match s with
  | '0' :: 'x' :: rest =>
    if rest = [] then none else parseDigits 16 hexDigitVal rest 0
  | '0' :: 'X' :: rest =>
    if rest = [] then none else parseDigits 16 hexDigitVal rest 0
  | [] => none
  | ['0'] => some 0
  | '0' :: _ :: _ => none
  | s => parseDigits 10 digitVal s 0

/-- Ascending duplicate-free enumeration of a list's elements: the model of
Python's `sorted(set(...))`. -/
def sortedDedup (l : List Nat) : List Nat :=
  (l.insertionSort (· ≤ ·)).dedup

/-- Embeds one iteration of the element loop of `gallia.utils._unravel`
(src/gallia/utils.py lines 109-119): an element containing `-` is split
into an inclusive range, any other element is a single numeral. -/
def processElem (part : PyStr) : Option (List Nat) :=
  if hasChar '-' part then
    match splitOnChar '-' part with
    | [a, b] =>
      match auto_int a, auto_int b with
      | some first, some last => some (List.range' first (last + 1 - first))
      | _, _ => none
    | _ => none
  else
    (auto_int part).map (fun n => [n])

/-- Collects the integers contributed by every element, failing if any
element is malformed. -/
def collectInts : List PyStr → Option (List Nat)
  | [] => some []
  | p :: ps =>
    match processElem p with
    | none => none
    | some xs =>
      match collectInts ps with
      | none => none
      | some rest => some (xs ++ rest)

/-- Embeds `gallia.utils._unravel` (src/gallia/utils.py lines 104-121):
splits on commas, accumulates all covered integers into a set and returns
them sorted ascending. -/
def unravel (s : PyStr) : Option (List Nat) :=
  match collectInts (splitOnChar ',' s) with
  | none => none
  | some ints => some (sortedDedup ints)

/-- Structured form of one element of the range grammar, carrying both its
textual rendering and its numeric value(s). -/
inductive RangeElem
  | single (s : PyStr) (n : Nat)
  | intv (sa sb : PyStr) (a b : Nat)

/-- Well-formedness of a grammar element: the carried strings are numerals
denoting the carried values and contain no separator characters. -/
def RangeElem.wf : RangeElem → Prop
  | .single s n => auto_int s = some n ∧ hasChar '-' s = false ∧ hasChar ',' s = false
  | .intv sa sb a b =>
      auto_int sa = some a ∧ auto_int sb = some b ∧
      hasChar '-' sa = false ∧ hasChar '-' sb = false ∧
      hasChar ',' sa = false ∧ hasChar ',' sb = false

/-- Textual rendering of a grammar element. -/
def RangeElem.render : RangeElem → PyStr
  | .single s _ => s
  | .intv sa sb _ _ => sa ++ '-' :: sb

/-- The integers an element covers. -/
def RangeElem.covers : RangeElem → Nat → Prop
  | .single _ n, m => m = n
  | .intv _ _ a b, m => a ≤ m ∧ m ≤ b

/-- The list of integers an element contributes in the code. -/
def RangeElem.coverList : RangeElem → List Nat
  | .single _ n => [n]
  | .intv _ _ a b => List.range' a (b + 1 - a)

/-- Comma-joined rendering of a whole listing. -/
def joinComma : List PyStr → PyStr
  | [] => []
  | [p] => p
  | p :: q :: ps => p ++ ',' :: joinComma (q :: ps)

/-- Rendering of a structured listing as a range-grammar string. -/
def renderListing (es : List RangeElem) : PyStr :=
  joinComma (es.map RangeElem.render)

/-- The skip dictionary built by `ParseSkips`: insertion-ordered pairs of a
session id and either `none` (skip the entire session) or the list of ids
to skip within that session. -/
abbrev SkipDict := List (Nat × Option (List Nat))

/-- Python dict lookup on the skip dictionary. -/
def dictGet (d : SkipDict) (k : Nat) : Option (Option (List Nat)) :=
  match d with
  | [] => none
  | p :: rest => if p.1 == k then some p.2 else dictGet rest k

/-- Python dict assignment on the skip dictionary: updates the first
binding for the key in place or appends a new binding. -/
def dictSet (d : SkipDict) (k : Nat) (v : Option (List Nat)) : SkipDict :=
  match d with
  | [] => [(k, v)]
  | p :: rest => if p.1 == k then (k, v) :: rest else p :: dictSet rest k v

/-- Embeds the per-session body of the colon branch of
`ParseSkips.__call__` (src/gallia/utils.py lines 149-156): a session not in
the dict gets the fresh id list (the code stores `[]` and extends it in
place), a session marked skip-entire is left untouched because `skips is
not None` fails, and a session with an id list has the new ids appended in
place. -/
def skipStep (iids : List Nat) (d : SkipDict) (sid : Nat) : SkipDict :=
  match dictGet d sid with
  | none => dictSet d sid (some iids)
  | some none => d
  | some (some l) => dictSet d sid (some (l ++ iids))

/-- Embeds one entry of `ParseSkips.__call__` (src/gallia/utils.py lines
136-156): an entry without a colon marks each of its sessions skip-entire;
an entry with a colon is split (exactly two parts, otherwise the tuple
unpack raises) into a session range and an id range and applies `skipStep`
to each session. -/
def stepEntry (d : SkipDict) (e : PyStr) : Option SkipDict :=
  if hasChar ':' e then
    match splitOnChar ':' e with
    | [sTmp, iTmp] =>
      match unravel sTmp, unravel iTmp with
      | some sids, some iids => some (sids.foldl (skipStep iids) d)
      | _, _ => none
    | _ => none
  else
    match unravel e with
    | none => none
    | some sids => some (sids.foldl (fun d sid => dictSet d sid none) d)

/-- Embeds `ParseSkips.__call__` (src/gallia/utils.py lines 124-160) over
the whitespace-separated entry list supplied by the argument parser;
`none` models the `ArgumentError` raised on any malformed entry. -/
def parse_skips (values : List PyStr) : Option SkipDict :=
  values.foldlM stepEntry []

/-- Embeds `FindXCP.pack_xcp_eth` (src/gallia/commands/discover/find_xcp.py
lines 58-62): `struct.pack` of the little-endian `(length, counter)` uint16
header followed by the payload; `none` models the `struct.error` raised on
a value that does not fit in a uint16. -/
def pack_xcp_eth (data : List Nat) (ctr : Nat) : Option (List Nat) :=
  if data.length < 65536 ∧ ctr < 65536 then
    some ([data.length % 256, data.length / 256, ctr % 256, ctr / 256] ++ data)
  else none

/-- Embeds `FindXCP.unpack_xcp_eth` (src/gallia/commands/discover/find_xcp.py
lines 64-67): `struct.unpack_from` of the 4-byte little-endian header and the
remaining payload; `none` models the `struct.error` on fewer than 4 bytes. -/
def unpack_xcp_eth : List Nat → Option (Nat × Nat × List Nat)
  | b0 :: b1 :: b2 :: b3 :: rest => some (b0 + 256 * b1, b2 + 256 * b3, rest)
  | _ => none

/-- Outcome of probing one TCP port, as seen by `FindXCP.test_tcp`:
the connect call raises, the send/recv exchange raises, or `recv`
returns a raw frame. -/
inductive TcpOutcome
  | connectFail
  | exchangeFail
  | recvData (raw : List Nat)
deriving DecidableEq

/-- Outcome of probing one UDP port, as seen by `FindXCP.test_udp`:
the `sendto` call raises, `recv` raises `TimeoutError`, or `recv`
returns a raw datagram. -/
inductive UdpOutcome
  | sendFail
  | timeout
  | recvData (raw : List Nat)
deriving DecidableEq

/-- Socket lifecycle events emitted by the TCP/UDP discovery loops. -/
inductive SockEvent
  | sockOpen (port : Nat)
  | sockClose (port : Nat)
deriving DecidableEq

/-- Embeds the port loop of `FindXCP.test_tcp`
(src/gallia/commands/discover/find_xcp.py lines 87-114).  Per port: open a
socket; on a connect exception continue (the socket is not closed); send the
probe and receive; on a send/recv/unpack exception continue (again without
closing); otherwise classify the payload, record the port when its first
byte is 0xFF, disconnect and close the socket.  Returns the socket event
trace and the recorded endpoints. -/
def test_tcp (env : Nat → TcpOutcome) : List Nat → List SockEvent × List Nat
  | [] => ([], [])
  | p :: rest =>
    let r := test_tcp env rest
    match env p with
    | .connectFail => (SockEvent.sockOpen p :: r.1, r.2)
    | .exchangeFail => (SockEvent.sockOpen p :: r.1, r.2)
    | .recvData raw =>
      match unpack_xcp_eth raw with
      | none => (SockEvent.sockOpen p :: r.1, r.2)
      | some (_, _, d) =>
        if d.head? == some 255 then
          (SockEvent.sockOpen p :: SockEvent.sockClose p :: r.1, p :: r.2)
        else
          (SockEvent.sockOpen p :: SockEvent.sockClose p :: r.1, r.2)

/-- The whole `test_tcp` run: the loop followed by the final
`Finished; Found N XCP endpoints` report, whose count is the third
component. -/
def test_tcp_run (ports : List Nat) (env : Nat → TcpOutcome) :
    List SockEvent × List Nat × Nat :=
  let r := test_tcp env ports
  (r.1, r.2, r.2.length)

/-- Embeds the port loop of `FindXCP.test_udp`
(src/gallia/commands/discover/find_xcp.py lines 132-153).  Per port: open a
socket and `sendto` the probe outside any try block (a send exception
terminates the run, modelled as `none`); receiving catches only
`TimeoutError`, so a datagram too short for the header raises an uncaught
`struct.error` (also `none`); otherwise the port is recorded when the
payload's first byte is 0xFF, and the socket is closed in every surviving
case. -/
def test_udp (env : Nat → UdpOutcome) : List Nat → Option (List SockEvent × List Nat)
  | [] => some ([], [])
  | p :: rest =>
    match env p with
    | .sendFail => none
    | .timeout =>
      match test_udp env rest with
      | none => none
      | some r => some (SockEvent.sockOpen p :: SockEvent.sockClose p :: r.1, r.2)
    | .recvData raw =>
      match unpack_xcp_eth raw with
      | none => none
      | some (_, _, d) =>
        match test_udp env rest with
        | none => none
        | some r =>
          if d.head? == some 255 then
            some (SockEvent.sockOpen p :: SockEvent.sockClose p :: r.1, p :: r.2)
          else
            some (SockEvent.sockOpen p :: SockEvent.sockClose p :: r.1, r.2)

/-- Spec-side classification of a TCP probe outcome: a frame was received
whose unpacked payload is non-empty with first byte 0xFF. -/
def tcpIsSlave : TcpOutcome → Bool
  | .recvData raw =>
    match unpack_xcp_eth raw with
    | some r => r.2.2.head? == some 255
    | none => false
  | _ => false

/-- Spec-side classification of a UDP probe outcome: a datagram was received
whose unpacked payload is non-empty with first byte 0xFF. -/
def udpIsSlave : UdpOutcome → Bool
  | .recvData raw =>
    match unpack_xcp_eth raw with
    | some r => r.2.2.head? == some 255
    | none => false
  | _ => false

/-- Whether the TCP loop reaches the close call for a port: the connect and
the exchange succeeded and the received frame had a parseable header. -/
def closesSocket : TcpOutcome → Bool
  | .recvData raw => (unpack_xcp_eth raw).isSome
  | _ => false

/-- Behavior of the CAN bus during one `test_can` run: the arbitration ids
seen while sniffing idle traffic, whether `sendto` succeeds at a given id,
and the `(master id, payload)` frames drained for a probed id before the
receive timeout. -/
structure CanEnv where
  idle : List Nat
  sendOk : Nat → Bool
  responses : Nat → List (Nat × List Nat)

/-- Transport interactions performed by `FindXCP.test_can`. -/
inductive CanEvent
  | sniff (secs : Nat)
  | setFilter (ids : List Nat) (inv : Bool)
  | sendTo (id : Nat) (pdu : List Nat)
  | recv (master : Nat) (data : List Nat)
deriving DecidableEq

/-- Embeds the receive drain of `FindXCP.test_can`
(src/gallia/commands/discover/find_xcp.py lines 180-192): receive until the
timeout (end of the response list); `data[0]` on an empty payload raises an
uncaught `IndexError` (`none`); a payload starting with 0xFF appends the
`(probed slave id, master id)` pair. -/
def drain (id : Nat) : List (Nat × List Nat) → Option (List CanEvent × List (Nat × Nat))
  | [] => some ([], [])
  | (m, d) :: rest =>
    match d with
    | [] => none
    | b :: _ =>
      match drain id rest with
      | none => none
      | some r =>
        some (CanEvent.recv m d :: r.1,
              (if b == 255 then [(id, m)] else []) ++ r.2)

/-- Embeds the id loop of `FindXCP.test_can`
(src/gallia/commands/discover/find_xcp.py lines 175-192): for each id send
the probe `FF 00` (a send exception is outside the try block and terminates
the run, modelled as `none`), then drain the responses. -/
def canProbeLoop (env : CanEnv) : List Nat → Option (List CanEvent × List (Nat × Nat))
  | [] => some ([], [])
  | id :: rest =>
    if env.sendOk id then
      match drain id (env.responses id) with
      | none => none
      | some r =>
        match canProbeLoop env rest with
        | none => none
        | some r2 =>
          some (CanEvent.sendTo id [255, 0] :: (r.1 ++ r2.1), r.2 ++ r2.2)
    else none

/-- Embeds `FindXCP.test_can`
(src/gallia/commands/discover/find_xcp.py lines 157-194): sniff idle traffic
for `sniffTime` seconds, install the inverted filter on the observed ids,
flush the receive queue by sniffing two more seconds, then probe every id
from `startId` to `endId` inclusive; the third component is the endpoint
count of the final report. -/
def test_can (sniffTime startId endId : Nat) (env : CanEnv) :
    Option (List CanEvent × List (Nat × Nat) × Nat) :=
  match canProbeLoop env (List.range' startId (endId + 1 - startId)) with
  | none => none
  | some r =>
    some ([CanEvent.sniff sniffTime, CanEvent.setFilter env.idle true,
           CanEvent.sniff 2] ++ r.1,
          r.2, r.2.length)

/-- The ids probed by a CAN event trace, in trace order. -/
def sentIds (t : List CanEvent) : List Nat :=
  t.filterMap (fun e =>
    match e with
    | CanEvent.sendTo id _ => some id
    | _ => none)

/-- Modelled from the spec: `RandomUDSServer` (gallia.services.uds.server)
is not under src/.  Section 4.5 requires a deterministic pseudo-random
generator seeded by a configured integer, and section 5 requires the
generator state to be per-connection so sequences are reproducible per
connection.  The generator is modelled as a 64-bit linear congruential
step. -/
def rngNext (s : Nat) : Nat :=
  (6364136223846793005 * s + 1442695040888963407) % (2 ^ 64)

/-- Modelled from the spec: the randomized virtual-ECU variant is
constructed from the configured integer seed
(src/gallia/commands/script/vecu.py lines 60-66 and 86-87). -/
structure RandomUDSServer where
  seed : Nat

/-- Modelled from the spec: one request/response exchange of the randomized
virtual ECU; the response bytes are a deterministic function of the
generator state and the request bytes. -/
def respond (st : Nat) (req : List Nat) : List Nat × Nat :=
  let mixed := req.foldl (fun a b => (a * 257 + b + 1) % (2 ^ 64)) st
  let next := rngNext mixed
  ([next / 2 ^ 56 % 256, next / 2 ^ 48 % 256, next % 256], next)

/-- Answers a sequence of requests on one accepted connection.  The
generator state is initialized from the server's seed alone; the connection
identity `connId` plays no role in the responses. -/
def serveConnection (server : RandomUDSServer) (connId : Nat)
    (reqs : List (List Nat)) : List (List Nat) :=
  go (rngNext server.seed) reqs
where
  go : Nat → List (List Nat) → List (List Nat)
    | _, [] => []
    | st, r :: rs =>
      let p := respond st r
      p.1 :: go p.2 rs

/-- Result of one awaited step of the virtual-ECU launcher: it either
returns normally or raises. -/
inductive StepOutcome
  | ok
  | raises
deriving DecidableEq

/-- Scoped operations performed by the tail of `VirtualECU.main`. -/
inductive VEvent
  | vsetup
  | vrun
  | vteardown
deriving DecidableEq

/-- Embeds the serve block of `VirtualECU.main`
(src/gallia/commands/script/vecu.py lines 117-121): `server.setup()` and
`transport.run()` inside `try`, `server.teardown()` in the `finally`
clause; the second component is whether the block re-raises. -/
def vecuServe (setupO runO : StepOutcome) : List VEvent × StepOutcome :=
  match setupO with
  | .raises => ([VEvent.vsetup, VEvent.vteardown], StepOutcome.raises)
  | .ok =>
    match runO with
    | .raises => ([VEvent.vsetup, VEvent.vrun, VEvent.vteardown], StepOutcome.raises)
    | .ok => ([VEvent.vsetup, VEvent.vrun, VEvent.vteardown], StepOutcome.ok)

/-- Concrete structured listing rendering to the grammar string `1-3,5`. -/
def esW : List RangeElem :=
  [RangeElem.intv (pstr ("1")) (pstr ("3")) 1 3, RangeElem.single (pstr ("5")) 5]

/-- Concrete TCP environment used to instantiate the classification
theorem: port 5555 answers with an XCP frame, every other port refuses. -/
def envTW : Nat → TcpOutcome := fun p =>
  if p == 5555 then TcpOutcome.recvData [2, 0, 0, 0, 255, 0] else TcpOutcome.connectFail

/-- Concrete UDP environment used to instantiate the classification
theorem: port 5555 answers with a non-XCP frame, every other port times
out. -/
def envUW : Nat → UdpOutcome := fun p =>
  if p == 5555 then UdpOutcome.recvData [1, 0, 0, 0, 254] else UdpOutcome.timeout

/-- Concrete CAN environment used to instantiate the discovery theorem:
probing id 256 yields one XCP answer from master id 768 and one non-XCP
answer from id 769; other ids stay silent. -/
def envCW : CanEnv :=
  CanEnv.mk [1792] (fun _ => true)
    (fun id => if id == 256 then [(768, [255, 8]), (769, [126])] else [])

/-- Concrete TCP environment where every connect is refused. -/
def envTW6 : Nat → TcpOutcome := fun _ => TcpOutcome.connectFail

/-- Concrete CAN environment where every send raises. -/
def envCW6 : CanEnv := CanEnv.mk [] (fun _ => false) (fun _ => [])

/-- Concrete UDP environment where the send on port 80 raises and every
other port times out. -/
def envUW6 : Nat → UdpOutcome := fun n =>
  if n == 80 then UdpOutcome.sendFail else UdpOutcome.timeout

/-- Decimal rendering of a natural number, the model of Python `str(port)`. -/
def pyStrOfNat (n : Nat) : PyStr := Nat.toDigits 10 n

/-- Embeds `gallia.utils.join_host_port` (src/gallia/utils.py lines 72-75),
including the literal `]:port` suffix the f-string produces for hosts
containing a colon. -/
def join_host_port (host : PyStr) (port : Nat) : PyStr :=
  if hasChar ':' host then pstr ("[") ++ host ++ pstr ("]:port")
  else host ++ ':' :: pyStrOfNat port

end Gallia

namespace Gallia

/-- C2: packing a payload of fewer than 65536 bytes with a counter below
65536 yields exactly the 4-byte little-endian `(length, counter)` header
followed by the payload, and unpacking the packed frame returns the length,
the counter and the payload unchanged. -/
theorem xcp_eth_pack_unpack_roundtrip (data : List Nat) (ctr : Nat)
    (h1 : data.length < 65536) (h2 : ctr < 65536) :
    pack_xcp_eth data ctr =
      some ([data.length % 256, data.length / 256, ctr % 256, ctr / 256] ++ data) ∧
    (pack_xcp_eth data ctr).bind unpack_xcp_eth = some (data.length, ctr, data) := by
  have hp : pack_xcp_eth data ctr =
      some ([data.length % 256, data.length / 256, ctr % 256, ctr / 256] ++ data) := by
    simp [pack_xcp_eth, h1, h2]
  refine ⟨hp, ?_⟩
  rw [hp]
  have hl : data.length % 256 + 256 * (data.length / 256) = data.length := by omega
  have hc : ctr % 256 + 256 * (ctr / 256) = ctr := by omega
  have h3 : (some ([data.length % 256, data.length / 256, ctr % 256, ctr / 256] ++ data)).bind
        unpack_xcp_eth
      = some (data.length % 256 + 256 * (data.length / 256),
              ctr % 256 + 256 * (ctr / 256), data) := rfl
  rw [h3, hl, hc]

/-- Closed instance of `xcp_eth_pack_unpack_roundtrip` at a concrete frame. -/
theorem xcp_eth_pack_unpack_roundtrip_witness :
    pack_xcp_eth [255, 0] 7 = some ([2, 0, 7, 0] ++ [255, 0]) ∧
    (pack_xcp_eth [255, 0] 7).bind unpack_xcp_eth = some (2, 7, [255, 0]) :=
  xcp_eth_pack_unpack_roundtrip [255, 0] 7 (by decide) (by decide)

/-- C10: for a host string containing a colon the function returns the
bracketed host followed by the four literal characters of `port` (the
numeric port value does not appear); only for a host without a colon does
it return `host:str(port)`. -/
theorem join_host_port_spec (host : PyStr) (port : Nat) :
    (hasChar ':' host = true →
      join_host_port host port = '[' :: host ++ pstr ("]:port")) ∧
    (hasChar ':' host = false →
      join_host_port host port = host ++ ':' :: pyStrOfNat port) := by
  constructor <;> intro h <;> simp [join_host_port, h, pstr]

/-- Closed instance of `join_host_port_spec` at an IPv6 host and a plain
host. -/
theorem join_host_port_spec_witness :
    join_host_port (pstr ("::1")) 8080 = '[' :: pstr ("::1") ++ pstr ("]:port") ∧
    join_host_port (pstr ("ecu")) 8080 = pstr ("ecu") ++ ':' :: pyStrOfNat 8080 :=
  ⟨(join_host_port_spec (pstr ("::1")) 8080).1 (by decide),
   (join_host_port_spec (pstr ("ecu")) 8080).2 (by decide)⟩

theorem hasChar_cons (c x : Char) (l : PyStr) :
    hasChar c (x :: l) = ((x == c) || hasChar c l) := by
  simp [hasChar]

theorem hasChar_append (c : Char) (a b : PyStr) :
    hasChar c (a ++ b) = (hasChar c a || hasChar c b) := by
  simp [hasChar]

theorem splitOnChar_of_not_contains {c : Char} {l : PyStr}
    (h : hasChar c l = false) : splitOnChar c l = [l] := by
  induction l with
  | nil => rfl
  | cons x xs ih =>
    rw [hasChar_cons, Bool.or_eq_false_iff] at h
    have hx : ¬(x = c) := by
      intro hxc
      rw [hxc] at h
      simp at h
    rw [splitOnChar]
    simp only [if_neg hx, ih h.2]
    rfl

theorem splitOnChar_append_cons {c : Char} {a : PyStr} (b : PyStr)
    (h : hasChar c a = false) :
    splitOnChar c (a ++ c :: b) = a :: splitOnChar c b := by
  induction a with
  | nil =>
    rw [List.nil_append, splitOnChar]
    simp
  | cons x a' ih =>
    rw [hasChar_cons, Bool.or_eq_false_iff] at h
    have hx : ¬(x = c) := by
      intro hxc
      rw [hxc] at h
      simp at h
    rw [List.cons_append, splitOnChar]
    simp only [if_neg hx, ih h.2]
    rfl

theorem splitOnChar_joinComma (parts : List PyStr) (hne : parts ≠ [])
    (h : ∀ p ∈ parts, hasChar ',' p = false) :
    splitOnChar ',' (joinComma parts) = parts := by
  induction parts with
  | nil => exact absurd rfl hne
  | cons p ps ih =>
    cases ps with
    | nil =>
      rw [joinComma]
      exact splitOnChar_of_not_contains (h p (List.mem_cons_self _ _))
    | cons q ps' =>
      rw [joinComma, splitOnChar_append_cons _ (h p (List.mem_cons_self _ _)),
          ih (by simp) (fun r hr => h r (List.mem_cons_of_mem _ hr))]

theorem processElem_single (s : PyStr) (n : Nat)
    (h1 : auto_int s = some n) (h2 : hasChar '-' s = false) :
    processElem s = some [n] := by
  simp [processElem, h2, h1]

theorem processElem_intv (sa sb : PyStr) (a b : Nat)
    (ha : auto_int sa = some a) (hb : auto_int sb = some b)
    (h1 : hasChar '-' sa = false) (h2 : hasChar '-' sb = false) :
    processElem (sa ++ '-' :: sb) = some (List.range' a (b + 1 - a)) := by
  have hc : hasChar '-' (sa ++ '-' :: sb) = true := by
    rw [hasChar_append, hasChar_cons]
    simp
  have hs : splitOnChar '-' (sa ++ '-' :: sb) = [sa, sb] := by
    rw [splitOnChar_append_cons _ h1, splitOnChar_of_not_contains h2]
  simp [processElem, hc, hs, ha, hb]

theorem collectInts_renderings (es : List RangeElem)
    (hwf : ∀ e ∈ es, e.wf) :
    collectInts (es.map RangeElem.render) =
      some (es.flatMap RangeElem.coverList) := by
  induction es with
  | nil => rfl
  | cons e es' ih =>
    have hwfe := hwf e (List.mem_cons_self _ _)
    have hpe : processElem e.render = some e.coverList := by
      cases e with
      | single s n =>
        exact processElem_single s n hwfe.1 hwfe.2.1
      | intv sa sb a b =>
        exact processElem_intv sa sb a b hwfe.1 hwfe.2.1 hwfe.2.2.1 hwfe.2.2.2.1
    rw [List.map_cons, collectInts, hpe,
        ih (fun e' he' => hwf e' (List.mem_cons_of_mem _ he')),
        List.flatMap_cons]

theorem sortedDedup_sorted (l : List Nat) :
    List.Sorted (· < ·) (sortedDedup l) := by
  have h1 : List.Sorted (· ≤ ·) (l.insertionSort (· ≤ ·)) :=
    List.sorted_insertionSort _ _
  have h2 : List.Sorted (· ≤ ·) (sortedDedup l) :=
    List.Pairwise.sublist (List.dedup_sublist _) h1
  exact h2.lt_of_le (List.nodup_dedup _)

theorem mem_sortedDedup (l : List Nat) (a : Nat) :
    a ∈ sortedDedup l ↔ a ∈ l := by
  rw [sortedDedup, List.mem_dedup]
  exact List.mem_insertionSort _

theorem mem_coverList (e : RangeElem) (n : Nat) :
    n ∈ e.coverList ↔ e.covers n := by
  cases e with
  | single s m => simp [RangeElem.coverList, RangeElem.covers]
  | intv sa sb a b =>
    simp only [RangeElem.coverList, RangeElem.covers, List.mem_range'_1]
    omega

theorem unravel_renderListing (es : List RangeElem) (hne : es ≠ [])
    (hwf : ∀ e ∈ es, e.wf) :
    unravel (renderListing es) = some (sortedDedup (es.flatMap RangeElem.coverList)) := by
  have hparts : splitOnChar ',' (renderListing es) = es.map RangeElem.render := by
    apply splitOnChar_joinComma
    · simpa using hne
    · intro p hp
      obtain ⟨e, he, rfl⟩ := List.mem_map.mp hp
      have hwfe := hwf e he
      cases e with
      | single s n => exact hwfe.2.2
      | intv sa sb a b =>
        rw [RangeElem.render, hasChar_append, hasChar_cons,
            hwfe.2.2.2.2.1, hwfe.2.2.2.2.2]
        rfl
  rw [unravel, hparts, collectInts_renderings es hwf]

/-- C3: for every string of the range grammar — rendered from a structured
listing of single numerals and inclusive `a-b` ranges — the parser returns
the duplicate-free ascending enumeration of exactly the covered integers;
in particular parsing `1-3,5` yields `[1, 2, 3, 5]`. -/
theorem unravel_range_grammar (es : List RangeElem) (hne : es ≠ [])
    (hwf : ∀ e ∈ es, e.wf) :
    (∃ out, unravel (renderListing es) = some out ∧
      List.Sorted (· < ·) out ∧
      (∀ n, n ∈ out ↔ ∃ e ∈ es, RangeElem.covers e n)) ∧
    unravel (pstr ("1-3,5")) = some [1, 2, 3, 5] := by
  constructor
  · refine ⟨sortedDedup (es.flatMap RangeElem.coverList),
      unravel_renderListing es hne hwf, sortedDedup_sorted _, ?_⟩
    intro n
    rw [mem_sortedDedup, List.mem_flatMap]
    constructor
    · rintro ⟨e, he, hn⟩
      exact ⟨e, he, (mem_coverList e n).mp hn⟩
    · rintro ⟨e, he, hn⟩
      exact ⟨e, he, (mem_coverList e n).mpr hn⟩
  · decide

/-- Closed instance of `unravel_range_grammar` at the structured listing
rendering to `1-3,5`. -/
theorem unravel_range_grammar_witness :
    (∃ out, unravel (renderListing esW) = some out ∧
      List.Sorted (· < ·) out ∧
      (∀ n, n ∈ out ↔ ∃ e ∈ esW, RangeElem.covers e n)) ∧
    unravel (pstr ("1-3,5")) = some [1, 2, 3, 5] :=
  unravel_range_grammar esW (by simp [esW])
    (by
      intro e he
      simp only [esW, List.mem_cons, List.not_mem_nil, or_false] at he
      rcases he with rfl | rfl
      · exact ⟨by decide, by decide, by decide, by decide, by decide, by decide⟩
      · exact ⟨by decide, by decide, by decide⟩)

theorem dictGet_dictSet_self (d : SkipDict) (k : Nat) (v : Option (List Nat)) :
    dictGet (dictSet d k v) k = some v := by
  induction d with
  | nil => simp [dictGet, dictSet]
  | cons p rest ih =>
    by_cases h : (p.1 == k) = true
    · simp [dictGet, dictSet, h]
    · simp only [Bool.not_eq_true] at h
      simp [dictGet, dictSet, h, ih]

theorem dictGet_dictSet_ne (d : SkipDict) (k k' : Nat) (v : Option (List Nat))
    (h : k' ≠ k) :
    dictGet (dictSet d k v) k' = dictGet d k' := by
  induction d with
  | nil => simp [dictGet, dictSet, h, Ne.symm h]
  | cons p rest ih =>
    by_cases hp : (p.1 == k) = true
    · have hp' : p.1 = k := by simpa using hp
      have : (p.1 == k') = false := by simp [hp', Ne.symm h]
      simp [dictGet, dictSet, hp, this, Ne.symm h]
    · simp only [Bool.not_eq_true] at hp
      simp [dictGet, dictSet, hp, ih]

theorem dictGet_skipStep (iids : List Nat) (d : SkipDict) (sid s : Nat) :
    dictGet (skipStep iids d sid) s =
      if s = sid then
        (match dictGet d sid with
         | none => some (some iids)
         | some none => some none
         | some (some l) => some (some (l ++ iids)))
      else dictGet d s := by
  by_cases hs : s = sid
  · subst hs
    rw [if_pos rfl]
    cases hg : dictGet d s with
    | none => simp only [skipStep, hg, dictGet_dictSet_self]
    | some ov =>
      cases ov with
      | none => simp only [skipStep, hg]
      | some l => simp only [skipStep, hg, dictGet_dictSet_self]
  · rw [if_neg hs]
    cases hg : dictGet d sid with
    | none => simp only [skipStep, hg]; exact dictGet_dictSet_ne d sid s _ hs
    | some ov =>
      cases ov with
      | none => simp only [skipStep, hg]
      | some l => simp only [skipStep, hg]; exact dictGet_dictSet_ne d sid s _ hs

theorem dictGet_foldl_skipStep (iids : List Nat) (sids : List Nat) :
    ∀ d : SkipDict, sids.Nodup → ∀ s : Nat,
      dictGet (sids.foldl (skipStep iids) d) s =
        if s ∈ sids then
          (match dictGet d s with
           | none => some (some iids)
           | some none => some none
           | some (some l) => some (some (l ++ iids)))
        else dictGet d s := by
  induction sids with
  | nil => intro d _ s; simp
  | cons sid rest ih =>
    intro d hnd s
    have hnd' := List.nodup_cons.mp hnd
    rw [List.foldl_cons, ih (skipStep iids d sid) hnd'.2 s]
    by_cases hmem : s ∈ rest
    · have hne : s ≠ sid := fun h => hnd'.1 (h ▸ hmem)
      rw [if_pos hmem, if_pos (List.mem_cons_of_mem _ hmem),
          dictGet_skipStep, if_neg hne]
    · rw [if_neg hmem]
      by_cases hs : s = sid
      · subst hs
        rw [if_pos (List.mem_cons_self _ _), dictGet_skipStep, if_pos rfl]
      · rw [if_neg (by simp [hs, hmem]), dictGet_skipStep, if_neg hs]

theorem dictGet_foldl_setNone (sids : List Nat) :
    ∀ d : SkipDict, ∀ s : Nat,
      dictGet (sids.foldl (fun d sid => dictSet d sid none) d) s =
        if s ∈ sids then some none else dictGet d s := by
  induction sids with
  | nil => intro d s; simp
  | cons sid rest ih =>
    intro d s
    rw [List.foldl_cons, ih _ s]
    by_cases hmem : s ∈ rest
    · rw [if_pos hmem, if_pos (List.mem_cons_of_mem _ hmem)]
    · rw [if_neg hmem]
      by_cases hs : s = sid
      · subst hs
        rw [if_pos (List.mem_cons_self _ _), dictGet_dictSet_self]
      · rw [if_neg (by simp [hs, hmem]), dictGet_dictSet_ne _ _ _ _ hs]

theorem unravel_nodup (s : PyStr) (l : List Nat)
    (h : unravel s = some l) : l.Nodup := by
  rw [unravel] at h
  cases hc : collectInts (splitOnChar ',' s) with
  | none => rw [hc] at h; exact Option.noConfusion h
  | some ints =>
    rw [hc] at h
    injection h with h
    rw [← h]
    unfold sortedDedup
    exact List.nodup_dedup _

/-- Negation of C4 as stated, at a concrete input: for the entry list
`5 5:10` the entry `5:10` adds no id to session 5 — the session keeps its
skip-entire marking and no id set containing 10 exists in the result. -/
theorem parse_skips_entire_session_counterexample :
    parse_skips [pstr ("5"), pstr ("5:10")] = some [(5, none)] ∧
    (∀ l : List Nat, dictGet [(5, none)] 5 ≠ some (some l)) := by
  refine ⟨by decide, ?_⟩
  intro l h
  rw [dictGet] at h
  simp at h

/-- C4 (amended): an entry `session-range:id-range` adds every id of the
id-range to the skip set of every session of the session-range that is not
already marked skip-entire-session — a fresh session gets exactly the ids,
a session with an existing id set gets them appended, and a session already
mapped to skip-entire-session keeps that marking unchanged; an entry
without a colon maps each of its sessions to skip-entire-session; in
particular parsing `1-2:10-12 5` maps 1 and 2 to {10,11,12} and 5 to
skip-entire-session. -/
theorem parse_skips_amended (d : SkipDict) (sa ia e : PyStr)
    (sids iids esids : List Nat)
    (hs : unravel sa = some sids) (hi : unravel ia = some iids)
    (hsa : hasChar ':' sa = false) (hia : hasChar ':' ia = false)
    (hec : hasChar ':' e = false) (hee : unravel e = some esids) :
    (∃ d1, stepEntry d (sa ++ ':' :: ia) = some d1 ∧
      ∀ s, dictGet d1 s =
        if s ∈ sids then
          (match dictGet d s with
           | none => some (some iids)
           | some none => some none
           | some (some l) => some (some (l ++ iids)))
        else dictGet d s) ∧
    (∃ d2, stepEntry d e = some d2 ∧
      ∀ s, dictGet d2 s = if s ∈ esids then some none else dictGet d s) ∧
    parse_skips [pstr ("1-2:10-12"), pstr ("5")] =
      some [(1, some [10, 11, 12]), (2, some [10, 11, 12]), (5, none)] := by
  refine ⟨?_, ?_, by decide⟩
  · have hc : hasChar ':' (sa ++ ':' :: ia) = true := by
      rw [hasChar_append, hasChar_cons]
      simp
    have hsplit : splitOnChar ':' (sa ++ ':' :: ia) = [sa, ia] := by
      rw [splitOnChar_append_cons _ hsa, splitOnChar_of_not_contains hia]
    refine ⟨sids.foldl (skipStep iids) d, ?_, ?_⟩
    · rw [stepEntry]
      simp only [hc, if_true, hsplit, hs, hi]
    · exact dictGet_foldl_skipStep iids sids d (unravel_nodup sa sids hs)
  · refine ⟨esids.foldl (fun d sid => dictSet d sid none) d, ?_, ?_⟩
    · rw [stepEntry]
      simp only [hec, Bool.false_eq_true, if_false, hee]
    · exact dictGet_foldl_setNone esids d

/-- Closed instance of `parse_skips_amended` at the dictionary already
mapping session 1 to skip-entire, the colon entry `1,2:10` and the plain
entry `5`. -/
theorem parse_skips_amended_witness :
    (∃ d1, stepEntry [(1, none)] (pstr ("1,2") ++ ':' :: pstr ("10")) = some d1 ∧
      ∀ s, dictGet d1 s =
        if s ∈ [1, 2] then
          (match dictGet [(1, none)] s with
           | none => some (some [10])
           | some none => some none
           | some (some l) => some (some (l ++ [10])))
        else dictGet [(1, none)] s) ∧
    (∃ d2, stepEntry [(1, none)] (pstr ("5")) = some d2 ∧
      ∀ s, dictGet d2 s = if s ∈ [5] then some none else dictGet [(1, none)] s) ∧
    parse_skips [pstr ("1-2:10-12"), pstr ("5")] =
      some [(1, some [10, 11, 12]), (2, some [10, 11, 12]), (5, none)] :=
  parse_skips_amended [(1, none)] (pstr ("1,2")) (pstr ("10")) (pstr ("5"))
    [1, 2] [10] [5] (by decide) (by decide) (by decide) (by decide)
    (by decide) (by decide)

theorem test_tcp_eps_eq (env : Nat → TcpOutcome) (ports : List Nat) :
    (test_tcp env ports).2 = ports.filter (fun p => tcpIsSlave (env p)) := by
  induction ports with
  | nil => rfl
  | cons p rest ih =>
    cases h : env p with
    | connectFail => simp [test_tcp, h, tcpIsSlave, List.filter_cons, ih]
    | exchangeFail => simp [test_tcp, h, tcpIsSlave, List.filter_cons, ih]
    | recvData raw =>
      cases hu : unpack_xcp_eth raw with
      | none => simp [test_tcp, h, hu, tcpIsSlave, List.filter_cons, ih]
      | some tri =>
        obtain ⟨len, ctr, d⟩ := tri
        by_cases hd : (d.head? == some 255) = true
        · simp [test_tcp, h, hu, tcpIsSlave, List.filter_cons, hd, ih]
        · simp only [Bool.not_eq_true] at hd
          simp [test_tcp, h, hu, tcpIsSlave, List.filter_cons, hd, ih]

theorem test_udp_eps_eq (env : Nat → UdpOutcome) (ports : List Nat)
    (t : List SockEvent) (eps : List Nat)
    (h : test_udp env ports = some (t, eps)) :
    eps = ports.filter (fun p => udpIsSlave (env p)) := by
  induction ports generalizing t eps with
  | nil =>
    simp only [test_udp, Option.some.injEq, Prod.mk.injEq] at h
    simp [← h.2]
  | cons p rest ih =>
    cases he : env p with
    | sendFail => simp only [test_udp, he] at h; exact Option.noConfusion h
    | timeout =>
      cases hr : test_udp env rest with
      | none => simp only [test_udp, he, hr] at h; exact Option.noConfusion h
      | some r =>
        simp only [test_udp, he, hr, Option.some.injEq, Prod.mk.injEq] at h
        rw [List.filter_cons]
        have hrec := ih r.1 r.2 (by rw [hr])
        simp [udpIsSlave, he, ← h.2, hrec]
    | recvData raw =>
      cases hu : unpack_xcp_eth raw with
      | none => simp only [test_udp, he, hu] at h; exact Option.noConfusion h
      | some tri =>
        obtain ⟨len, ctr, d⟩ := tri
        cases hr : test_udp env rest with
        | none => simp only [test_udp, he, hu, hr] at h; exact Option.noConfusion h
        | some r =>
          have hrec := ih r.1 r.2 (by rw [hr])
          by_cases hd : (d.head? == some 255) = true
          · simp only [test_udp, he, hu, hr] at h
            rw [if_pos hd] at h
            simp only [Option.some.injEq, Prod.mk.injEq] at h
            rw [List.filter_cons]
            simp [udpIsSlave, he, hu, hd, ← h.2, hrec]
          · simp only [test_udp, he, hu, hr] at h
            rw [if_neg hd] at h
            simp only [Option.some.injEq, Prod.mk.injEq] at h
            rw [List.filter_cons]
            simp only [Bool.not_eq_true] at hd
            simp [udpIsSlave, he, hu, hd, ← h.2, hrec]

/-- C5: in the TCP and UDP discovery loops a probed port is recorded as an
XCP slave endpoint exactly when a frame is received before the timeout whose
unpacked payload is non-empty with first byte 0xFF; connect failures,
exchange failures, timeouts, unparseable frames and differently-marked
payloads record nothing for that port (stated for every completed UDP
run; a UDP run that dies on an uncaught exception is `none`). -/
theorem xcp_eth_slave_classification (ports : List Nat)
    (envT : Nat → TcpOutcome) (envU : Nat → UdpOutcome) :
    (test_tcp envT ports).2 = ports.filter (fun p => tcpIsSlave (envT p)) ∧
    (∀ t eps, test_udp envU ports = some (t, eps) →
      eps = ports.filter (fun p => udpIsSlave (envU p))) :=
  ⟨test_tcp_eps_eq envT ports,
   fun t eps h => test_udp_eps_eq envU ports t eps h⟩

/-- Closed instance of `xcp_eth_slave_classification`: among ports 5555 and
5556 only the XCP answer on 5555 is recorded over TCP, and the non-XCP
answer on UDP port 5555 records nothing. -/
theorem xcp_eth_slave_classification_witness :
    (test_tcp envTW [5555, 5556]).2 =
      [5555, 5556].filter (fun p => tcpIsSlave (envTW p)) ∧
    ([] : List Nat) = [5555, 5556].filter (fun p => udpIsSlave (envUW p)) :=
  ⟨(xcp_eth_slave_classification [5555, 5556] envTW envUW).1,
   (xcp_eth_slave_classification [5555, 5556] envTW envUW).2
     [SockEvent.sockOpen 5555, SockEvent.sockClose 5555,
      SockEvent.sockOpen 5556, SockEvent.sockClose 5556] [] (by decide)⟩

/-- C6 (amended): in the TCP loop a port's connect or send/receive failure
leaves the endpoints unchanged and iteration continues with the remaining
ports, and the final report always states the number of recorded endpoints;
in the CAN loop a send failure terminates the whole run, in the UDP loop a
send failure terminates the whole run while a receive timeout is tolerated
and iteration continues. -/
theorem discovery_loop_error_tolerance (envT : Nat → TcpOutcome) (envC : CanEnv)
    (envU : Nat → UdpOutcome) (p q : Nat) (rest : List Nat) (sniffT s e : Nat) :
    (envT p = TcpOutcome.connectFail ∨ envT p = TcpOutcome.exchangeFail →
      (test_tcp envT (p :: rest)).2 = (test_tcp envT rest).2 ∧
      (test_tcp envT (p :: rest)).1 = SockEvent.sockOpen p :: (test_tcp envT rest).1) ∧
    (∀ ports, (test_tcp_run ports envT).2.2 = (test_tcp_run ports envT).2.1.length) ∧
    (envC.sendOk s = false → s ≤ e → test_can sniffT s e envC = none) ∧
    (envU p = UdpOutcome.sendFail → test_udp envU (p :: rest) = none) ∧
    (envU q = UdpOutcome.timeout →
      test_udp envU (q :: rest) =
        (test_udp envU rest).map
          (fun r => (SockEvent.sockOpen q :: SockEvent.sockClose q :: r.1, r.2))) := by
  refine ⟨?_, ?_, ?_, ?_, ?_⟩
  · rintro (h | h) <;> exact ⟨by simp [test_tcp, h], by simp [test_tcp, h]⟩
  · intro ports; rfl
  · intro h1 h2
    have hn : e + 1 - s = (e - s) + 1 := by omega
    rw [test_can, hn, List.range'_succ, canProbeLoop, h1]
    simp
  · intro h; rw [test_udp, h]
  · intro h
    rw [test_udp, h]
    cases hr : test_udp envU rest <;> simp [hr]

/-- Closed instance of `discovery_loop_error_tolerance` at concrete
environments: a refused TCP connect skips to the next port, a failing CAN
send kills the run, a failing UDP send kills the run, a UDP timeout is
tolerated. -/
theorem discovery_loop_error_tolerance_witness :
    ((test_tcp envTW6 [80]).2 = (test_tcp envTW6 []).2 ∧
     (test_tcp envTW6 [80]).1 = SockEvent.sockOpen 80 :: (test_tcp envTW6 []).1) ∧
    test_can 60 0 5 envCW6 = none ∧
    test_udp envUW6 [80] = none ∧
    test_udp envUW6 [81] =
      (test_udp envUW6 []).map
        (fun r => (SockEvent.sockOpen 81 :: SockEvent.sockClose 81 :: r.1, r.2)) := by
  have h := discovery_loop_error_tolerance envTW6 envCW6 envUW6 80 81 [] 60 0 5
  exact ⟨h.1 (Or.inl rfl), h.2.2.1 rfl (by decide), h.2.2.2.1 rfl,
         h.2.2.2.2 rfl⟩

/-- Negation of C6 as stated, at a concrete input: with a CAN send failure
at the single probed id 256, the CAN discovery run terminates with an
exception instead of continuing and reporting the final endpoint count. -/
theorem can_discovery_send_failure_counterexample :
    test_can 60 256 256 (CanEnv.mk [] (fun _ => false) (fun _ => [])) = none := by
  decide

/-- C9 (amended): the TCP discovery loop closes a port's socket before
proceeding exactly when the connect succeeded and the probe exchange
returned a frame with a parseable header; on a connect failure or a
send/receive failure it continues to the next port without closing that
socket. -/
theorem tcp_socket_close_iff_parseable (env : Nat → TcpOutcome) (ports : List Nat) :
    (test_tcp env ports).1 = ports.flatMap (fun p =>
      SockEvent.sockOpen p ::
        (if closesSocket (env p) then [SockEvent.sockClose p] else [])) := by
  induction ports with
  | nil => rfl
  | cons p rest ih =>
    cases h : env p with
    | connectFail => simp [test_tcp, h, closesSocket, List.flatMap_cons, ih]
    | exchangeFail => simp [test_tcp, h, closesSocket, List.flatMap_cons, ih]
    | recvData raw =>
      cases hu : unpack_xcp_eth raw with
      | none => simp [test_tcp, h, hu, closesSocket, List.flatMap_cons, ih]
      | some tri =>
        obtain ⟨len, ctr, d⟩ := tri
        by_cases hd : (d.head? == some 255) = true
        · simp [test_tcp, h, hu, closesSocket, List.flatMap_cons, hd, ih]
        · simp only [Bool.not_eq_true] at hd
          simp [test_tcp, h, hu, closesSocket, List.flatMap_cons, hd, ih]

/-- Negation of C9 as stated, at a concrete input: the socket opened for
port 5555 whose connect is refused is never closed — the loop moves on and
the open socket outlives the port's iteration. -/
theorem tcp_socket_leak_counterexample :
    (test_tcp (fun _ => TcpOutcome.connectFail) [5555]).1 = [SockEvent.sockOpen 5555] ∧
    SockEvent.sockClose 5555 ∉ (test_tcp (fun _ => TcpOutcome.connectFail) [5555]).1 := by
  decide

/-- C7: two randomized virtual-ECU instances constructed with the same
integer seed, answering the same ordered request sequence on independent
connections, produce byte-identical response sequences. -/
theorem vecu_rng_determinism (s1 s2 : RandomUDSServer) (c1 c2 : Nat)
    (reqs : List (List Nat)) (h : s1.seed = s2.seed) :
    serveConnection s1 c1 reqs = serveConnection s2 c2 reqs := by
  unfold serveConnection
  rw [h]

/-- Closed instance of `vecu_rng_determinism` at seed 42 and a concrete
request sequence on connections 1 and 2. -/
theorem vecu_rng_determinism_witness :
    serveConnection (RandomUDSServer.mk 42) 1 [[16, 1], [34, 242, 134]] =
      serveConnection (RandomUDSServer.mk 42) 2 [[16, 1], [34, 242, 134]] :=
  vecu_rng_determinism (RandomUDSServer.mk 42) (RandomUDSServer.mk 42) 1 2
    [[16, 1], [34, 242, 134]] rfl

theorem drain_eq (id : Nat) (resps : List (Nat × List Nat))
    (h : ∀ m d, (m, d) ∈ resps → d ≠ []) :
    drain id resps = some (resps.map (fun p => CanEvent.recv p.1 p.2),
      (resps.filter (fun p => p.2.head? == some 255)).map (fun p => (id, p.1))) := by
  induction resps with
  | nil => rfl
  | cons pr rest ih =>
    obtain ⟨m, d⟩ := pr
    have hd : d ≠ [] := h m d (List.mem_cons_self _ _)
    cases d with
    | nil => exact absurd rfl hd
    | cons b bs =>
      rw [drain, ih (fun m' d' hmem => h m' d' (List.mem_cons_of_mem _ hmem))]
      by_cases hb : (b == 255) = true
      · simp [List.filter_cons, hb]
      · simp only [Bool.not_eq_true] at hb
        simp [List.filter_cons, hb]

theorem canProbeLoop_eq (env : CanEnv) (ids : List Nat)
    (hsend : ∀ id ∈ ids, env.sendOk id = true)
    (hne : ∀ id ∈ ids, ∀ m d, (m, d) ∈ env.responses id → d ≠ []) :
    canProbeLoop env ids = some (
      ids.flatMap (fun id => CanEvent.sendTo id [255, 0] ::
        (env.responses id).map (fun p => CanEvent.recv p.1 p.2)),
      ids.flatMap (fun id =>
        ((env.responses id).filter (fun p => p.2.head? == some 255)).map
          (fun p => (id, p.1)))) := by
  induction ids with
  | nil => rfl
  | cons i rest ih =>
    rw [canProbeLoop, hsend i (List.mem_cons_self _ _),
        drain_eq i _ (hne i (List.mem_cons_self _ _)),
        ih (fun id hm => hsend id (List.mem_cons_of_mem _ hm))
           (fun id hm => hne id (List.mem_cons_of_mem _ hm))]
    simp [List.flatMap_cons]

theorem sentIds_flatMap (ids : List Nat) (f : Nat → List (Nat × List Nat)) :
    sentIds (ids.flatMap (fun id => CanEvent.sendTo id [255, 0] ::
      (f id).map (fun p => CanEvent.recv p.1 p.2))) = ids := by
  induction ids with
  | nil => rfl
  | cons i rest ih =>
    rw [List.flatMap_cons]
    simp only [sentIds] at ih ⊢
    rw [List.filterMap_append, ih, List.filterMap_cons]
    simp [List.filterMap_map, Function.comp]

/-- C1: after sniffing idle traffic for the configured duration, installing
the inverted filter on the observed ids and flushing residual frames, the
CAN discovery sends the 2-byte probe `FF 00` at every id from
`can_id_start` to `can_id_end` inclusive, one id at a time in strictly
ascending order, and appends a `(probed slave id, responding master id)`
pair exactly for the drained responses whose first payload byte is 0xFF
(stated for runs where every send succeeds and every drained payload is
non-empty, the cases in which the loop completes). -/
theorem xcp_can_discovery (sniffTime startId endId : Nat) (env : CanEnv)
    (hsend : ∀ id, env.sendOk id = true)
    (hne : ∀ id m d, (m, d) ∈ env.responses id → d ≠ []) :
    ∃ trace eps,
      test_can sniffTime startId endId env = some (trace, eps, eps.length) ∧
      trace = [CanEvent.sniff sniffTime, CanEvent.setFilter env.idle true,
               CanEvent.sniff 2]
        ++ (List.range' startId (endId + 1 - startId)).flatMap
             (fun id => CanEvent.sendTo id [255, 0] ::
               (env.responses id).map (fun p => CanEvent.recv p.1 p.2)) ∧
      sentIds trace = List.range' startId (endId + 1 - startId) ∧
      List.Sorted (· < ·) (sentIds trace) ∧
      eps = (List.range' startId (endId + 1 - startId)).flatMap
        (fun id =>
          ((env.responses id).filter (fun p => p.2.head? == some 255)).map
            (fun p => (id, p.1))) := by
  have hloop := canProbeLoop_eq env (List.range' startId (endId + 1 - startId))
    (fun id _ => hsend id) (fun id _ => hne id)
  refine ⟨_, _, ?_, rfl, ?_, ?_, rfl⟩
  · rw [test_can, hloop]
  · have hpre : sentIds [CanEvent.sniff sniffTime,
        CanEvent.setFilter env.idle true, CanEvent.sniff 2] = [] := rfl
    simp only [sentIds] at hpre ⊢
    rw [List.filterMap_append, hpre, List.nil_append]
    exact sentIds_flatMap _ _
  · have hpre : sentIds [CanEvent.sniff sniffTime,
        CanEvent.setFilter env.idle true, CanEvent.sniff 2] = [] := rfl
    have hs : sentIds ([CanEvent.sniff sniffTime,
        CanEvent.setFilter env.idle true, CanEvent.sniff 2]
        ++ (List.range' startId (endId + 1 - startId)).flatMap
             (fun id => CanEvent.sendTo id [255, 0] ::
               (env.responses id).map (fun p => CanEvent.recv p.1 p.2)))
        = List.range' startId (endId + 1 - startId) := by
      simp only [sentIds] at hpre ⊢
      rw [List.filterMap_append, hpre, List.nil_append]
      exact sentIds_flatMap _ _
    rw [hs]
    exact List.pairwise_lt_range' startId (endId + 1 - startId)

/-- Closed instance of `xcp_can_discovery`: scanning ids 255-257 against
`envCW` records exactly the pair `(256, 768)` for the XCP answer and not
the non-XCP answer from id 769. -/
theorem xcp_can_discovery_witness :
    ∃ trace eps,
      test_can 60 255 257 envCW = some (trace, eps, eps.length) ∧
      trace = [CanEvent.sniff 60, CanEvent.setFilter envCW.idle true,
               CanEvent.sniff 2]
        ++ (List.range' 255 (257 + 1 - 255)).flatMap
             (fun id => CanEvent.sendTo id [255, 0] ::
               (envCW.responses id).map (fun p => CanEvent.recv p.1 p.2)) ∧
      sentIds trace = List.range' 255 (257 + 1 - 255) ∧
      List.Sorted (· < ·) (sentIds trace) ∧
      eps = (List.range' 255 (257 + 1 - 255)).flatMap
        (fun id =>
          ((envCW.responses id).filter (fun p => p.2.head? == some 255)).map
            (fun p => (id, p.1))) :=
  xcp_can_discovery 60 255 257 envCW (fun _ => rfl)
    (by
      intro id m d hmem
      simp only [envCW] at hmem
      by_cases hid : (id == 256) = true
      · rw [if_pos hid] at hmem
        simp only [List.mem_cons, List.not_mem_nil, or_false] at hmem
        rcases hmem with h1 | h1 <;> simp_all
      · simp only [Bool.not_eq_true] at hid
        rw [hid] at hmem
        simp at hmem)

/-- C8: whatever the outcomes of `server.setup()` and the transport serve
loop — normal return or a raised exception — the launcher awaits
`server.teardown()` as the final scoped operation of the serve block. -/
theorem vecu_teardown_on_all_paths (s r : StepOutcome) :
    VEvent.vteardown ∈ (vecuServe s r).1 ∧
    (vecuServe s r).1.getLast? = some VEvent.vteardown := by
  cases s <;> cases r <;> exact (by decide)

end Gallia
